import Mathlib

/-!
Verification of the RuWordNet wrapper (`ruwordnet.py`, class `RuWordNetInfo`).

The Python class is shallowly embedded here.  Python dicts are modelled as
association lists in insertion order (`dlookup` / `dinsert` reproduce dict
read and write semantics: an assignment to an existing key updates the entry
in place, a new key is appended at the end).  XML record streams are modelled
as lists of structures carrying the attributes the code reads.  Fallible
dict subscripting (Python `d[k]`, which raises `KeyError` when `k` is
absent) is modelled with `Except String` or `Option`.  The single impure
spot of the class — `show_synonyms` calling `list.remove` on the list object
returned by `show_synset_words`, which is the list stored inside the index —
is modelled by explicit state passing of the whole index (`eraseSynsetWord`).
`str.lower` is modelled by `pyLower`; the examples used in the theorems
below only exercise inputs on which the two agree.
-/

namespace RuWordNet

/-- Lookup in a Python-dict model: first entry with the given key. -/
def dlookup {α : Type} : List (String × α) → String → Option α
  | [], _ => none
  | (k', v) :: rest, k => if k' = k then some v else dlookup rest k

/-- Python `k in d.keys()`. -/
def dcontains {α : Type} (m : List (String × α)) (k : String) : Bool :=
  (dlookup m k).isSome

/-- Python `d[k] = v`: update in place when the key exists, append otherwise. -/
def dinsert {α : Type} : List (String × α) → String → α → List (String × α)
  | [], k, v => [(k, v)]
  | (k', v') :: rest, k, v =>
      if k' = k then (k, v) :: rest else (k', v') :: dinsert rest k v

/-- A record of a `senses.*.xml` stream: the attributes the class reads. -/
structure Sense where
  name : String
  synset_id : String
  meaning : String
  lemma_ : String
deriving DecidableEq, Repr

/-- A record of a `synsets.*.xml` stream: the attributes the class reads. -/
structure SynsetRec where
  id : String
  ruthes_name : String
  defn : String
deriving DecidableEq, Repr

/-- The value stored by `extract_synset_definitions`:
the dict with keys `ruthes_name` and `definition`. -/
structure Defin where
  ruthes_name : String
  defn : String
deriving DecidableEq, Repr

/-- A record of a `synset_relations.*.xml` stream. -/
structure RelRec where
  parent_id : String
  name : String
  child_id : String
deriving DecidableEq, Repr

/-- Python `str.lower`, modelled as `Char.toLower` over the character list.
`Char.toLower` lowercases only the basic latin range; the concrete inputs
used below are ASCII or already lowercase, where this agrees with Python. -/
def pyLower (s : String) : String := ⟨s.data.map Char.toLower⟩

/-- One iteration of the loop of `create_word_synset_map` (lines 70-80):
lowercase the name, initialise the missing entries with `[]`,
append `synset_id` under the name and the name under `synset_id`. -/
def addSense (acc : List (String × List String) × List (String × List String))
    (child : Sense) : List (String × List String) × List (String × List String) :=
  let name := pyLower child.name
  let synset_dict := if dcontains acc.1 name then acc.1 else dinsert acc.1 name []
  let synset_dict :=
    dinsert synset_dict name ((dlookup synset_dict name).getD [] ++ [child.synset_id])
  let synonyms :=
    if dcontains acc.2 child.synset_id then acc.2 else dinsert acc.2 child.synset_id []
  let synonyms :=
    dinsert synonyms child.synset_id ((dlookup synonyms child.synset_id).getD [] ++ [name])
  (synset_dict, synonyms)

/-- `RuWordNetInfo.create_word_synset_map`: builds the pair
(word → synsets, synset → words) from one sense stream. -/
def create_word_synset_map (senses : List Sense) :
    List (String × List String) × List (String × List String) :=
  senses.foldl addSense ([], [])

/-- `RuWordNetInfo.extract_synset_definitions`. -/
def extract_synset_definitions (synsets : List SynsetRec) : List (String × Defin) :=
  synsets.foldl (fun d c => dinsert d c.id ⟨c.ruthes_name, c.defn⟩) []

/-- The nested relation dictionary: parent synset → (relation name → child synsets). -/
abbrev RelDict := List (String × List (String × List String))

/-- One iteration of the inner loop of `get_basic_relations` (lines 112-126),
with `par_id_prev` threaded through.  The access
`relatives_dict_new[child.attrib[...]]` in the `par_id_prev ==` branch is a
fallible subscript, hence the `Except`. -/
def relStep (acc : Except String (RelDict × String)) (child : RelRec) :
    Except String (RelDict × String) :=
  match acc with
  | .error e => .error e
  | .ok (relatives_dict_new, par_id_prev) =>
      if par_id_prev = child.parent_id then
        match dlookup relatives_dict_new child.parent_id with
        | none => .error "KeyError: parent_id"
        | some inner =>
            match dlookup inner child.name with
            | some lst =>
                .ok (dinsert relatives_dict_new child.parent_id
                      (dinsert inner child.name (lst ++ [child.child_id])), par_id_prev)
            | none =>
                .ok (dinsert relatives_dict_new child.parent_id
                      (dinsert inner child.name [child.child_id]), child.parent_id)
      else
        .ok (dinsert relatives_dict_new child.parent_id
              (dinsert ([] : List (String × List String)) child.name [child.child_id]),
             child.parent_id)

/-- `RuWordNetInfo.get_basic_relations`: one fold per relations file,
`par_id_prev` reset to `''` at the start of each file (line 111). -/
def get_basic_relations (relations_files : List (List RelRec)) : Except String RelDict :=
  relations_files.foldl
    (fun acc file =>
      match acc with
      | .error e => .error e
      | .ok d => (file.foldl relStep (.ok (d, ""))).map Prod.fst)
    (.ok [])

/-- The index state held by a `RuWordNetInfo` instance after `__init__`. -/
structure WN where
  word_synset_N : List (String × List String)
  word_synset_V : List (String × List String)
  word_synset_A : List (String × List String)
  synset_word_N : List (String × List String)
  synset_word_V : List (String × List String)
  synset_word_A : List (String × List String)
  defin_N : List (String × Defin)
  defin_V : List (String × Defin)
  defin_A : List (String × Defin)
  basic_relations : RelDict
deriving DecidableEq, Repr

/-- `RuWordNetInfo.__init__` after the XML files are parsed into record
streams: build the three word/synset map pairs, the three definition maps
and the relation dictionary. -/
def mkRuWordNetInfo (senses_N senses_V senses_A : List Sense)
    (synsets_N synsets_V synsets_A : List SynsetRec)
    (relations_files : List (List RelRec)) : Except String WN :=
  match get_basic_relations relations_files with
  | .error e => .error e
  | .ok br =>
      .ok {
        word_synset_N := (create_word_synset_map senses_N).1
        word_synset_V := (create_word_synset_map senses_V).1
        word_synset_A := (create_word_synset_map senses_A).1
        synset_word_N := (create_word_synset_map senses_N).2
        synset_word_V := (create_word_synset_map senses_V).2
        synset_word_A := (create_word_synset_map senses_A).2
        defin_N := extract_synset_definitions synsets_N
        defin_V := extract_synset_definitions synsets_V
        defin_A := extract_synset_definitions synsets_A
        basic_relations := br
      }

/-- `RuWordNetInfo.extract_word_synset_number` on its default
`full_info=False` path (lines 139-148 and 158): probe the three word maps
noun, verb, adjective, first hit wins; sentinel list when absent from all.
The `full_info=True` branch only post-processes the same `synsets` list
through `show_synset_definitions` and is not modelled. -/
def extract_word_synset_number (wn : WN) (word : String) : List String :=
  match dlookup wn.word_synset_N word with
  | some synsets => synsets
  | none =>
      match dlookup wn.word_synset_V word with
      | some synsets => synsets
      | none =>
          match dlookup wn.word_synset_A word with
          | some synsets => synsets
          | none => ["No such word in RuWordNet"]

/-- `RuWordNetInfo.show_synset_definitions` (lines 168-178).  Note that the
source checks `self.defin_N` in all three branches — lines 171 and 174 again
read `defin_N`, not `defin_V` / `defin_A`; the embedding reproduces this.
`none` models the `{}` returned by the final `else`. -/
def show_synset_definitions (wn : WN) (synset_number : String) : Option Defin :=
  match dlookup wn.defin_N synset_number with
  | some d => some d
  | none =>
      match dlookup wn.defin_N synset_number with
      | some d => some d
      | none =>
          match dlookup wn.defin_N synset_number with
          | some d => some d
          | none => none

/-- `RuWordNetInfo.show_synset_words` (lines 188-198). -/
def show_synset_words (wn : WN) (synset_number : String) : List String :=
  match dlookup wn.synset_word_N synset_number with
  | some l => l
  | none =>
      match dlookup wn.synset_word_V synset_number with
      | some l => l
      | none =>
          match dlookup wn.synset_word_A synset_number with
          | some l => l
          | none => ["No such synset in the thesaurus"]

/-- State effect of `synonyms.remove(word)` at line 226: the list bound to
`synonyms` is the very list object stored in whichever synset→words map
`show_synset_words` found `syn` in, so the removal mutates that map entry.
When `syn` is in none of the maps, `show_synset_words` returned a fresh
sentinel list and the state is untouched. -/
def eraseSynsetWord (wn : WN) (syn word : String) : WN :=
  match dlookup wn.synset_word_N syn with
  | some l =>
      { wn with synset_word_N :=
          dinsert wn.synset_word_N syn (if word ∈ l then l.erase word else l) }
  | none =>
      match dlookup wn.synset_word_V syn with
      | some l =>
          { wn with synset_word_V :=
              dinsert wn.synset_word_V syn (if word ∈ l then l.erase word else l) }
      | none =>
          match dlookup wn.synset_word_A syn with
          | some l =>
              { wn with synset_word_A :=
                  dinsert wn.synset_word_A syn (if word ∈ l then l.erase word else l) }
          | none => wn

/-- One output entry of `show_synonyms`:
`{'synset_id': ..., 'synonyms': [...], 'ruthes_name': ...}`. -/
structure SynEntry where
  synset_id : String
  synonyms : List String
  ruthes_name : String
deriving DecidableEq, Repr

/-- Whether a synset id is a key of any of the three synset→words maps
(the condition under which `show_synset_words` hands out a stored list
object rather than a fresh sentinel list). -/
def synsetFound (wn : WN) (syn : String) : Bool :=
  dcontains wn.synset_word_N syn || dcontains wn.synset_word_V syn ||
    dcontains wn.synset_word_A syn

/-- Aliasing of the output entries of `show_synonyms`: when the entry's
synset is present in one of the synset→words maps, the `synonyms` value
appended at line 229 IS the stored list object, so `list.remove` calls of
later iterations for the same synset keep mutating it and the returned
dict exposes its final value.  A synset absent from every map received a
fresh sentinel list instead, unaffected by later iterations.  Key sets
never change during the loop, so presence in the final state coincides
with presence at iteration time. -/
def resolveAlias (wn : WN) (e : SynEntry) : SynEntry :=
  if synsetFound wn e.synset_id then
    { e with synonyms := show_synset_words wn e.synset_id }
  else e

/-- The loop of `show_synonyms` (lines 223-229), threading the mutated index
state.  `self.show_synset_definitions(syn)['ruthes_name']` raises `KeyError`
when `show_synset_definitions` returned `{}`; Python `list.remove` removes
the first occurrence and is guarded by `if word in synonyms`.  The entries
collected here hold the value of the `synonyms` list at append time;
`show_synonyms` then applies `resolveAlias` with the final state, because a
stored (aliased) list reflects every later removal as well. -/
def synLoop (word : String) : WN → List String → List SynEntry →
    Except String (List SynEntry × WN)
  | wn, [], acc => .ok (acc, wn)
  | wn, syn :: rest, acc =>
      let synonyms := show_synset_words wn syn
      let synonyms := if word ∈ synonyms then synonyms.erase word else synonyms
      let wn' := eraseSynsetWord wn syn word
      match show_synset_definitions wn' syn with
      | none => .error "KeyError: ruthes_name"
      | some d => synLoop word wn' rest (acc ++ [⟨syn, synonyms, d.ruthes_name⟩])

/-- `RuWordNetInfo.show_synonyms` (lines 200-231): probe the three word maps
in order; `Sum.inl` is the early-return string `'No such word in RuWordNet'`,
`Sum.inr` the list of entries.  The resulting index state is returned
because the loop mutates it (see `eraseSynsetWord`), and the entries are
resolved against that final state (see `resolveAlias`) to reproduce the
aliasing of the returned `synonyms` lists. -/
def show_synonyms (wn : WN) (word : String) :
    Except String ((String ⊕ List SynEntry) × WN) :=
  match dlookup wn.word_synset_N word with
  | some synsets =>
      (synLoop word wn synsets []).map (fun r => (Sum.inr (r.1.map (resolveAlias r.2)), r.2))
  | none =>
      match dlookup wn.word_synset_V word with
      | some synsets =>
          (synLoop word wn synsets []).map (fun r => (Sum.inr (r.1.map (resolveAlias r.2)), r.2))
      | none =>
          match dlookup wn.word_synset_A word with
          | some synsets =>
              (synLoop word wn synsets []).map (fun r => (Sum.inr (r.1.map (resolveAlias r.2)), r.2))
          | none => .ok (Sum.inl "No such word in RuWordNet", wn)

/-- `RuWordNetInfo.show_basic_synset_relations` (lines 240-243). -/
def show_basic_synset_relations (wn : WN) (synset_number : String) :
    List (String × List String) :=
  match dlookup wn.basic_relations synset_number with
  | some d => d
  | none => []

/-- Body of the innermost `print_synsets=False` branch of
`show_synset_relations_with_words` (lines 280-283): initialise the relation
entry with `[]` when absent, then `extend` with the words of `syn`. -/
def relWordsStep (wn : WN) (out : List (String × List String)) (relation syn : String) :
    List (String × List String) :=
  dinsert out relation ((dlookup out relation).getD [] ++ show_synset_words wn syn)

/-- The two nested loops of `show_synset_relations_with_words` on the
`print_synsets=False` path (lines 265-283). -/
def relWordsFlat (wn : WN) (relatives_dict : List (String × List String)) :
    List (String × List String) :=
  relatives_dict.foldl
    (fun out rs => rs.2.foldl (fun o syn => relWordsStep wn o rs.1 syn) out) []

/-- `RuWordNetInfo.show_synset_relations_with_words` with
`print_synsets=False` (lines 245-292): `none` for `relations` models the
default `'all'`, `some rel_list` the filtered dict comprehension of
line 290.  The `print_synsets=True` branch builds a nested dict instead and
is not needed here. -/
def show_synset_relations_with_words (wn : WN) (synset_number : String)
    (relations : Option (List String)) : List (String × List String) :=
  let relatives_dict := show_basic_synset_relations wn synset_number
  if relatives_dict = [] then []
  else
    let relatives_dict_words := relWordsFlat wn relatives_dict
    match relations with
    | none => relatives_dict_words
    | some rel_list =>
        rel_list.foldl
          (fun fd r =>
            if dcontains relatives_dict_words r then
              dinsert fd r ((dlookup relatives_dict_words r).getD [])
            else fd) []

/-- The record streams held as `self.senses_N` / `self.senses_V` /
`self.senses_A`. -/
structure SenseFiles where
  senses_N : List Sense
  senses_V : List Sense
  senses_A : List Sense
deriving DecidableEq, Repr

/-- `RuWordNetInfo.extract_polysesmous_words` (lines 339-371): POS dispatch,
then one pass over the sense stream collecting (first occurrence only) every
name whose `meaning` attribute differs from `'1'`. -/
def extract_polysesmous_words (sf : SenseFiles) (pos output : String) : List String :=
  let senses? : Option (List Sense) :=
    if pos = "Noun" then some sf.senses_N
    else if pos = "Verb" then some sf.senses_V
    else if pos = "Adj" then some sf.senses_A
    else none
  match senses? with
  | none => []
  | some senses =>
      senses.foldl
        (fun poly_words child =>
          let mean := child.meaning
          let name := if output = "lemmas" then pyLower child.lemma_ else pyLower child.name
          if name ∉ poly_words ∧ mean ≠ "1" then poly_words ++ [name] else poly_words) []

/-- `RuWordNetInfo.extract_monosesmous_words` (lines 373-405): identical to
the polysemous pass but keeping the names with `meaning == '1'`. -/
def extract_monosesmous_words (sf : SenseFiles) (pos output : String) : List String :=
  let senses? : Option (List Sense) :=
    if pos = "Noun" then some sf.senses_N
    else if pos = "Verb" then some sf.senses_V
    else if pos = "Adj" then some sf.senses_A
    else none
  match senses? with
  | none => []
  | some senses =>
      senses.foldl
        (fun mono_words child =>
          let mean := child.meaning
          let name := if output = "lemmas" then pyLower child.lemma_ else pyLower child.name
          if name ∉ mono_words ∧ mean = "1" then mono_words ++ [name] else mono_words) []

/-! Concrete inputs and index states used by the theorems below. -/

/-- The relation stream of C1, fed as a single relations file:
records for `P1` are not contiguous. -/
def relRecsC1 : List RelRec :=
  [⟨"P1", "hyp", "A"⟩, ⟨"P2", "hol", "B"⟩, ⟨"P1", "hyp", "C"⟩]

/-- An index whose verb definition map has an entry for `V1`
while the noun definition map does not. -/
def wnDefV : WN := ⟨[], [], [], [], [], [], [], [("V1", ⟨"R", ""⟩)], [], []⟩

/-- An index with one noun word `a` in synset `S1`, whose stored word list
is `["a", "b"]`, and a definition for `S1`. -/
def wnMut : WN :=
  ⟨[("a", ["S1"])], [], [], [("S1", ["a", "b"])], [], [],
   [("S1", ⟨"NAME", ""⟩)], [], [], []⟩

/-- An index with one verb word `v` in synset `V1`: `V1` has a verb
definition but no noun definition. -/
def wnVerb : WN :=
  ⟨[], [("v", ["V1"])], [], [], [("V1", ["v"])], [], [], [("V1", ⟨"X", ""⟩)], [], []⟩

/-- A one-record sense stream whose `name` attribute carries an uppercase
letter; `create_word_synset_map` stores it lowercased. -/
def sensesDom : List Sense := [⟨"Dom", "N1", "1", "dom"⟩]

/-- An index built from `sensesDom` as `__init__` does when only the noun
sense file is nonempty. -/
def wnDom : WN :=
  ⟨(create_word_synset_map sensesDom).1, [], [],
   (create_word_synset_map sensesDom).2, [], [], [], [], [], []⟩

/-- The two noun sense records of C5: the lemma `дом` has senses
numbered `1` and `2`. -/
def sfDom : SenseFiles :=
  ⟨[⟨"дом", "N1", "1", "дом"⟩, ⟨"дом", "N2", "2", "дом"⟩], [], []⟩

/-- An index where both the noun and the verb partitions hold the word `w`
and the synset `s`, with different values. -/
def wnBoth : WN :=
  ⟨[("w", ["N1"])], [("w", ["V9"])], [], [("s", ["x"])], [("s", ["y"])], [],
   [], [], [], []⟩

/-- An index whose synset `S1` stores the word list
`["luk", "luk", "oruzhie"]`, queried with `luk` in C8. -/
def wnLuk : WN :=
  ⟨[("luk", ["S1"])], [], [], [("S1", ["luk", "luk", "oruzhie"])], [], [],
   [("S1", ⟨"LUK", ""⟩)], [], [], []⟩

/-- An index where the word `a` resolves to the duplicated synset list
`["S1", "S1"]` (two identical sense records were ingested) and `S1` stores
the word list `["a", "a", "b"]`. -/
def wnDup : WN :=
  ⟨[("a", ["S1", "S1"])], [], [], [("S1", ["a", "a", "b"])], [], [],
   [("S1", ⟨"D", ""⟩)], [], [], []⟩

/-- An index whose synset `S` has a `hyp` relation edge to `X`, and `X`
is absent from all three synset→words maps. -/
def wnDangling : WN := ⟨[], [], [], [], [], [], [], [], [], [("S", [("hyp", ["X"])])]⟩

/-! Helper lemmas. -/

theorem dlookup_dinsert_self {α : Type} (m : List (String × α)) (k : String) (v : α) :
    dlookup (dinsert m k v) k = some v := by
  induction m with
  | nil => simp [dinsert, dlookup]
  | cons p rest ih =>
      obtain ⟨k', v'⟩ := p
      by_cases h : k' = k
      · subst h
        simp [dinsert, dlookup]
      · simp [dinsert, dlookup, h, ih]

theorem dlookup_dinsert_ne {α : Type} (m : List (String × α)) (k j : String) (v : α)
    (hne : j ≠ k) : dlookup (dinsert m k v) j = dlookup m j := by
  have hkj : k ≠ j := fun h => hne h.symm
  induction m with
  | nil => simp [dinsert, dlookup, hkj]
  | cons p rest ih =>
      obtain ⟨k', v'⟩ := p
      by_cases h : k' = k
      · subst h
        simp [dinsert, dlookup, hkj]
      · simp [dinsert, dlookup, h, ih]

theorem dcontains_false_lookup {α : Type} (m : List (String × α)) (k : String)
    (h : dcontains m k = false) : dlookup m k = none := by
  unfold dcontains at h
  cases hm : dlookup m k with
  | none => rfl
  | some v => rw [hm] at h; simp at h

theorem addSense_fst_lookup
    (acc : List (String × List String) × List (String × List String))
    (c : Sense) (w : String) :
    dlookup (addSense acc c).1 w =
      if w = pyLower c.name then some ((dlookup acc.1 w).getD [] ++ [c.synset_id])
      else dlookup acc.1 w := by
  by_cases hc : dcontains acc.1 (pyLower c.name) = true
  · by_cases hw : w = pyLower c.name
    · subst hw
      simp [addSense, hc, dlookup_dinsert_self]
    · simp [addSense, hc, dlookup_dinsert_ne _ _ _ _ hw, hw]
  · have hcf : dcontains acc.1 (pyLower c.name) = false := by simpa using hc
    have hnone : dlookup acc.1 (pyLower c.name) = none := dcontains_false_lookup _ _ hcf
    by_cases hw : w = pyLower c.name
    · subst hw
      simp [addSense, hcf, dlookup_dinsert_self, hnone]
    · simp [addSense, hcf, dlookup_dinsert_ne _ _ _ _ hw, hw]

theorem addSense_snd_lookup
    (acc : List (String × List String) × List (String × List String))
    (c : Sense) (S : String) :
    dlookup (addSense acc c).2 S =
      if S = c.synset_id then some ((dlookup acc.2 S).getD [] ++ [pyLower c.name])
      else dlookup acc.2 S := by
  by_cases hc : dcontains acc.2 c.synset_id = true
  · by_cases hS : S = c.synset_id
    · subst hS
      simp [addSense, hc, dlookup_dinsert_self]
    · simp [addSense, hc, dlookup_dinsert_ne _ _ _ _ hS, hS]
  · have hcf : dcontains acc.2 c.synset_id = false := by simpa using hc
    have hnone : dlookup acc.2 c.synset_id = none := dcontains_false_lookup _ _ hcf
    by_cases hS : S = c.synset_id
    · subst hS
      simp [addSense, hcf, dlookup_dinsert_self, hnone]
    · simp [addSense, hcf, dlookup_dinsert_ne _ _ _ _ hS, hS]

theorem create_fst_mem (senses : List Sense) :
    ∀ (acc : List (String × List String) × List (String × List String)) (w S : String),
    S ∈ (dlookup (senses.foldl addSense acc).1 w).getD [] ↔
      S ∈ (dlookup acc.1 w).getD [] ∨
        ∃ r ∈ senses, pyLower r.name = w ∧ r.synset_id = S := by
  induction senses with
  | nil => intro acc w S; simp
  | cons c rest ih =>
      intro acc w S
      rw [List.foldl_cons, ih (addSense acc c) w S, addSense_fst_lookup,
        List.exists_mem_cons_iff]
      by_cases hw : w = pyLower c.name
      · rw [if_pos hw]
        simp only [Option.getD_some, List.mem_append, List.mem_singleton]
        constructor
        · rintro ((hS | hS) | hrest)
          · exact Or.inl hS
          · exact Or.inr (Or.inl ⟨hw.symm, hS.symm⟩)
          · exact Or.inr (Or.inr hrest)
        · rintro (hS | (⟨-, hS⟩ | hrest))
          · exact Or.inl (Or.inl hS)
          · exact Or.inl (Or.inr hS.symm)
          · exact Or.inr hrest
      · have hcw : ¬(pyLower c.name = w) := fun h => hw h.symm
        rw [if_neg hw]
        simp [hcw]

theorem create_snd_mem (senses : List Sense) :
    ∀ (acc : List (String × List String) × List (String × List String)) (S w : String),
    w ∈ (dlookup (senses.foldl addSense acc).2 S).getD [] ↔
      w ∈ (dlookup acc.2 S).getD [] ∨
        ∃ r ∈ senses, pyLower r.name = w ∧ r.synset_id = S := by
  induction senses with
  | nil => intro acc S w; simp
  | cons c rest ih =>
      intro acc S w
      rw [List.foldl_cons, ih (addSense acc c) S w, addSense_snd_lookup,
        List.exists_mem_cons_iff]
      by_cases hS : S = c.synset_id
      · rw [if_pos hS]
        simp only [Option.getD_some, List.mem_append, List.mem_singleton]
        constructor
        · rintro ((hw | hw) | hrest)
          · exact Or.inl hw
          · exact Or.inr (Or.inl ⟨hw.symm, hS.symm⟩)
          · exact Or.inr (Or.inr hrest)
        · rintro (hw | (⟨hw, -⟩ | hrest))
          · exact Or.inl (Or.inl hw)
          · exact Or.inl (Or.inr hw.symm)
          · exact Or.inr hrest
      · have hcS : ¬(c.synset_id = S) := fun h => hS h.symm
        rw [if_neg hS]
        simp [hcS]

theorem show_synset_words_erase_ne (wn : WN) (syn word x : String) (hx : x ≠ syn) :
    show_synset_words (eraseSynsetWord wn syn word) x = show_synset_words wn x := by
  unfold eraseSynsetWord
  cases hN : dlookup wn.synset_word_N syn with
  | some l => simp [show_synset_words, dlookup_dinsert_ne _ _ _ _ hx]
  | none =>
      cases hV : dlookup wn.synset_word_V syn with
      | some l => simp [show_synset_words, dlookup_dinsert_ne _ _ _ _ hx]
      | none =>
          cases hA : dlookup wn.synset_word_A syn with
          | some l => simp [show_synset_words, dlookup_dinsert_ne _ _ _ _ hx]
          | none => rfl

theorem dcontains_dinsert_of_mem {α : Type} (m : List (String × α)) (k x : String) (v : α)
    (hk : dcontains m k = true) :
    dcontains (dinsert m k v) x = dcontains m x := by
  by_cases hx : x = k
  · subst hx
    rw [hk]
    simp [dcontains, dlookup_dinsert_self]
  · simp [dcontains, dlookup_dinsert_ne _ _ _ _ hx]

theorem eraseSynsetWord_found_eq (wn : WN) (syn word x : String) :
    synsetFound (eraseSynsetWord wn syn word) x = synsetFound wn x := by
  unfold eraseSynsetWord
  cases hN : dlookup wn.synset_word_N syn with
  | some l =>
      have hk : dcontains wn.synset_word_N syn = true := by simp [dcontains, hN]
      simp [synsetFound, dcontains_dinsert_of_mem _ _ _ _ hk]
  | none =>
      cases hV : dlookup wn.synset_word_V syn with
      | some l =>
          have hk : dcontains wn.synset_word_V syn = true := by simp [dcontains, hV]
          simp [synsetFound, dcontains_dinsert_of_mem _ _ _ _ hk]
      | none =>
          cases hA : dlookup wn.synset_word_A syn with
          | some l =>
              have hk : dcontains wn.synset_word_A syn = true := by simp [dcontains, hA]
              simp [synsetFound, dcontains_dinsert_of_mem _ _ _ _ hk]
          | none => rfl

theorem eraseSynsetWord_words_self (wn : WN) (syn word : String)
    (hf : synsetFound wn syn = true) :
    show_synset_words (eraseSynsetWord wn syn word) syn =
      if word ∈ show_synset_words wn syn then (show_synset_words wn syn).erase word
      else show_synset_words wn syn := by
  unfold eraseSynsetWord
  cases hN : dlookup wn.synset_word_N syn with
  | some l => simp [show_synset_words, hN, dlookup_dinsert_self]
  | none =>
      cases hV : dlookup wn.synset_word_V syn with
      | some l => simp [show_synset_words, hN, hV, dlookup_dinsert_self]
      | none =>
          cases hA : dlookup wn.synset_word_A syn with
          | some l => simp [show_synset_words, hN, hV, hA, dlookup_dinsert_self]
          | none =>
              exfalso
              rw [synsetFound] at hf
              simp [dcontains, hN, hV, hA] at hf

theorem synLoop_preserves (word : String) :
    ∀ (syns : List String) (wn : WN) (acc entries : List SynEntry) (wn' : WN),
    synLoop word wn syns acc = .ok (entries, wn') →
    ∀ x : String,
      (x ∉ syns → show_synset_words wn' x = show_synset_words wn x) ∧
      synsetFound wn' x = synsetFound wn x := by
  intro syns
  induction syns with
  | nil =>
      intro wn acc entries wn' hrun x
      unfold synLoop at hrun
      injection hrun with h
      injection h with h1 h2
      subst h2
      exact ⟨fun _ => rfl, rfl⟩
  | cons syn rest ih =>
      intro wn acc entries wn' hrun x
      unfold synLoop at hrun
      cases hdef : show_synset_definitions (eraseSynsetWord wn syn word) syn with
      | none => simp only [hdef] at hrun; cases hrun
      | some d =>
          simp only [hdef] at hrun
          have H := ih (eraseSynsetWord wn syn word) _ entries wn' hrun x
          constructor
          · intro hx
            have hxsyn : x ≠ syn := fun h => hx (h ▸ List.mem_cons_self _ _)
            have hxrest : x ∉ rest := fun h => hx (List.mem_cons_of_mem _ h)
            rw [H.1 hxrest, show_synset_words_erase_ne wn syn word x hxsyn]
          · rw [H.2, eraseSynsetWord_found_eq]

theorem synLoop_spec (word : String) :
    ∀ (syns : List String) (wn : WN) (acc entries : List SynEntry) (wn' : WN),
    synLoop word wn syns acc = .ok (entries, wn') → syns.Nodup →
    ∀ e ∈ entries, e ∈ acc ∨
      (e.synset_id ∈ syns ∧
        e.synonyms = (show_synset_words wn e.synset_id).erase word ∧
        resolveAlias wn' e = e) := by
  intro syns
  induction syns with
  | nil =>
      intro wn acc entries wn' hrun _ e he
      unfold synLoop at hrun
      injection hrun with h
      injection h with h1 h2
      exact Or.inl (by rw [h1]; exact he)
  | cons syn rest ih =>
      intro wn acc entries wn' hrun hnd e he
      unfold synLoop at hrun
      cases hdef : show_synset_definitions (eraseSynsetWord wn syn word) syn with
      | none => simp only [hdef] at hrun; cases hrun
      | some d =>
          simp only [hdef] at hrun
          have hnd' : rest.Nodup := hnd.of_cons
          have hsynmem : syn ∉ rest := (List.nodup_cons.mp hnd).1
          rcases ih (eraseSynsetWord wn syn word)
              (acc ++ [⟨syn,
                if word ∈ show_synset_words wn syn then
                  (show_synset_words wn syn).erase word
                else show_synset_words wn syn, d.ruthes_name⟩]) entries wn' hrun hnd' e he
            with hacc | ⟨hmem, hsynonyms, hres⟩
          · rcases List.mem_append.mp hacc with h | h
            · exact Or.inl h
            · right
              have he0 := List.mem_singleton.mp h
              subst he0
              have hpres := synLoop_preserves word rest (eraseSynsetWord wn syn word)
                _ entries wn' hrun syn
              refine ⟨List.mem_cons_self _ _, ?_, ?_⟩
              · by_cases hin : word ∈ show_synset_words wn syn
                · simp [hin]
                · simp [hin, List.erase_of_not_mem hin]
              · by_cases hf : synsetFound wn syn = true
                · have hfound : synsetFound wn' syn = true := by
                    rw [hpres.2, eraseSynsetWord_found_eq, hf]
                  have hwords : show_synset_words wn' syn =
                      (if word ∈ show_synset_words wn syn then
                        (show_synset_words wn syn).erase word
                      else show_synset_words wn syn) := by
                    rw [hpres.1 hsynmem, eraseSynsetWord_words_self wn syn word hf]
                  simp [resolveAlias, hfound, hwords]
                · have hff : synsetFound wn syn = false := by simpa using hf
                  have hnfound : synsetFound wn' syn = false := by
                    rw [hpres.2, eraseSynsetWord_found_eq, hff]
                  simp [resolveAlias, hnfound]
          · right
            have hne : e.synset_id ≠ syn := fun h => hsynmem (h ▸ hmem)
            refine ⟨List.mem_cons_of_mem _ hmem, ?_, hres⟩
            rw [hsynonyms, show_synset_words_erase_ne wn syn word e.synset_id hne]

theorem relWordsStep_mono (wn : WN) (out : List (String × List String))
    (relation syn r x : String) (h : x ∈ (dlookup out r).getD []) :
    x ∈ (dlookup (relWordsStep wn out relation syn) r).getD [] := by
  by_cases hr : r = relation
  · subst hr
    simp only [relWordsStep, dlookup_dinsert_self, Option.getD_some]
    exact List.mem_append.mpr (Or.inl h)
  · rw [relWordsStep, dlookup_dinsert_ne _ _ _ _ hr]
    exact h

theorem relWordsStep_self (wn : WN) (out : List (String × List String))
    (relation syn x : String) (h : x ∈ show_synset_words wn syn) :
    x ∈ (dlookup (relWordsStep wn out relation syn) relation).getD [] := by
  simp only [relWordsStep, dlookup_dinsert_self, Option.getD_some]
  exact List.mem_append.mpr (Or.inr h)

theorem innerFold_mono (wn : WN) (relation r x : String) :
    ∀ (syns : List String) (out : List (String × List String)),
    x ∈ (dlookup out r).getD [] →
    x ∈ (dlookup (syns.foldl (fun o syn => relWordsStep wn o relation syn) out) r).getD [] := by
  intro syns
  induction syns with
  | nil => intro out h; simpa using h
  | cons s rest ih =>
      intro out h
      rw [List.foldl_cons]
      exact ih _ (relWordsStep_mono wn out relation s r x h)

theorem innerFold_add (wn : WN) (relation x : String) :
    ∀ (syns : List String) (out : List (String × List String)) (syn : String),
    syn ∈ syns → x ∈ show_synset_words wn syn →
    x ∈ (dlookup (syns.foldl (fun o s => relWordsStep wn o relation s) out) relation).getD [] := by
  intro syns
  induction syns with
  | nil => intro out syn h; cases h
  | cons s rest ih =>
      intro out syn hmem hx
      rw [List.foldl_cons]
      rcases List.mem_cons.mp hmem with h | h
      · subst h
        exact innerFold_mono wn relation relation x rest _
          (relWordsStep_self wn out relation syn x hx)
      · exact ih _ syn h hx

theorem outerFold_mono (wn : WN) (r x : String) :
    ∀ (rels : List (String × List String)) (out : List (String × List String)),
    x ∈ (dlookup out r).getD [] →
    x ∈ (dlookup (rels.foldl
        (fun o rs => rs.2.foldl (fun o2 s => relWordsStep wn o2 rs.1 s) o) out) r).getD [] := by
  intro rels
  induction rels with
  | nil => intro out h; simpa using h
  | cons p rest ih =>
      intro out h
      rw [List.foldl_cons]
      exact ih _ (innerFold_mono wn p.1 r x p.2 out h)

theorem relFold_mem (wn : WN) (relation syn x : String) (syns : List String) :
    ∀ (rels : List (String × List String)) (out : List (String × List String)),
    (relation, syns) ∈ rels → syn ∈ syns → x ∈ show_synset_words wn syn →
    x ∈ (dlookup (rels.foldl
        (fun o rs => rs.2.foldl (fun o2 s => relWordsStep wn o2 rs.1 s) o) out) relation).getD [] := by
  intro rels
  induction rels with
  | nil => intro out h; cases h
  | cons p rest ih =>
      intro out hmem hsyn hx
      rw [List.foldl_cons]
      rcases List.mem_cons.mp hmem with h | h
      · subst h
        exact outerFold_mono wn relation x rest _
          (innerFold_add wn relation x syns out syn hsyn hx)
      · exact ih _ h hsyn hx

/-! The claims. -/

/-- C1: the claim says `get_basic_relations` groups child synsets strictly
by equality of `parent_id`, so on `[(P1,hyp,A), (P2,hol,B), (P1,hyp,C)]` P1
should map to `hyp ↦ [A, C]`.  The code instead resets an already-present
parent to the empty dict when its records are non-contiguous (line 123):
P1 ends up with `hyp ↦ [C]` only, record A being discarded. -/
theorem claim_C1_nonContiguous_parent_reset :
    get_basic_relations [relRecsC1] =
      .ok [("P1", [("hyp", ["C"])]), ("P2", [("hol", ["B"])])] ∧
    dlookup ((get_basic_relations [relRecsC1]).toOption.getD []) "P1" ≠
      some [("hyp", ["A", "C"])] := by
  exact ⟨rfl, by decide⟩

/-- C2: the claim says `show_synset_definitions` probes the noun, verb and
adjective definition maps in order.  All three branches of the source
(lines 168-175) read `defin_N`, so a synset id stored only in `defin_V`
yields the empty result instead of its stored Definition. -/
theorem claim_C2_defin_V_never_probed :
    dlookup wnDefV.defin_V "V1" = some ⟨"R", ""⟩ ∧
    show_synset_definitions wnDefV "V1" = none := ⟨rfl, rfl⟩

/-- C3: the claim says no Lookup Engine operation mutates any index, so
`wordsOf S` is unchanged by `synonymsOf` calls.  `show_synonyms` calls
`list.remove` on the very list object stored in the synset→words map
(lines 224-226), so after `show_synonyms wnMut "a"` the stored word list of
`S1` has lost the entry `"a"`. -/
theorem claim_C3_show_synonyms_mutates_index :
    show_synset_words wnMut "S1" = ["a", "b"] ∧
    show_synonyms wnMut "a" =
      .ok (Sum.inr [⟨"S1", ["b"], "NAME"⟩], eraseSynsetWord wnMut "S1" "a") ∧
    show_synset_words (eraseSynsetWord wnMut "S1" "a") "S1" = ["b"] :=
  ⟨rfl, rfl, rfl⟩

/-- C6: the claim says a missing Definition never raises.  For a word whose
resolved synset has no entry in `defin_N`, line 228
(`show_synset_definitions(syn)['ruthes_name']`) subscripts the empty dict
and raises `KeyError` — here modelled as the `Except.error` outcome. -/
theorem claim_C6_show_synonyms_raises :
    show_synonyms wnVerb "v" = .error "KeyError: ruthes_name" := rfl

/-- C4 counterexample: the claim says `extract_word_synset_number` is
case-insensitive, returning for `w` the result for `lowercase(w)`.  The
query is looked up verbatim: the ingested name `"Dom"` is stored under
`"dom"`, the query `"Dom"` gets the not-found sentinel while `"dom"`
resolves. -/
theorem claim_C4_counterexample :
    pyLower "Dom" = "dom" ∧
    extract_word_synset_number wnDom "Dom" = ["No such word in RuWordNet"] ∧
    extract_word_synset_number wnDom (pyLower "Dom") = ["N1"] := ⟨rfl, rfl, rfl⟩

/-- C4 amended: lookups are exact on the query string with no case folding;
only ingestion lowercases.  Every ingested name is present in the word map
under its lowercased form, and a query absent (verbatim) from all three
word maps — for example one containing an uppercase letter — returns the
sentinel `['No such word in RuWordNet']`. -/
theorem claim_C4_exact_query_lookup :
    (∀ (senses : List Sense), ∀ r ∈ senses,
      dcontains (create_word_synset_map senses).1 (pyLower r.name) = true) ∧
    (∀ (wn : WN) (w : String),
      dlookup wn.word_synset_N w = none →
      dlookup wn.word_synset_V w = none →
      dlookup wn.word_synset_A w = none →
      extract_word_synset_number wn w = ["No such word in RuWordNet"]) := by
  constructor
  · intro senses r hr
    have hmem : r.synset_id ∈
        (dlookup (create_word_synset_map senses).1 (pyLower r.name)).getD [] := by
      rw [create_word_synset_map, create_fst_mem senses ([], []) (pyLower r.name) r.synset_id]
      exact Or.inr ⟨r, hr, rfl, rfl⟩
    cases hl : dlookup (create_word_synset_map senses).1 (pyLower r.name) with
    | none => rw [hl] at hmem; simp at hmem
    | some l => simp [dcontains, hl]
  · intro wn w hN hV hA
    simp [extract_word_synset_number, hN, hV, hA]

/-- Witness for C4 amended, at the record `("Dom", "N1")` and the
empty-index query `"Dom"`. -/
theorem claim_C4_exact_query_lookup_witness :
    dcontains (create_word_synset_map sensesDom).1 (pyLower "Dom") = true ∧
    extract_word_synset_number
      (⟨[], [], [], [], [], [], [], [], [], []⟩ : WN) "Dom" =
      ["No such word in RuWordNet"] :=
  ⟨claim_C4_exact_query_lookup.1 sensesDom ⟨"Dom", "N1", "1", "dom"⟩ (by simp [sensesDom]),
   claim_C4_exact_query_lookup.2 _ "Dom" rfl rfl rfl⟩

/-- C5 counterexample: the claim says the polysemous and monosemous lemma
lists partition the lemma set with no overlap, and that on the two sense
records for `дом` (meanings `1` and `2`) the monosemous result is empty.
The code keys each list on the existence of a sense with `meaning == '1'`
(respectively `!= '1'`), so `дом` lands in BOTH lists. -/
theorem claim_C5_counterexample :
    extract_polysesmous_words sfDom "Noun" "lemmas" = ["дом"] ∧
    extract_monosesmous_words sfDom "Noun" "lemmas" = ["дом"] := ⟨rfl, rfl⟩

theorem poly_noun_lemmas_eq (sf : SenseFiles) :
    extract_polysesmous_words sf "Noun" "lemmas" =
      sf.senses_N.foldl
        (fun poly_words child =>
          if pyLower child.lemma_ ∉ poly_words ∧ child.meaning ≠ "1" then
            poly_words ++ [pyLower child.lemma_]
          else poly_words) [] := rfl

theorem mono_noun_lemmas_eq (sf : SenseFiles) :
    extract_monosesmous_words sf "Noun" "lemmas" =
      sf.senses_N.foldl
        (fun mono_words child =>
          if pyLower child.lemma_ ∉ mono_words ∧ child.meaning = "1" then
            mono_words ++ [pyLower child.lemma_]
          else mono_words) [] := rfl

theorem polyAux (l : List Sense) :
    ∀ (acc : List String) (w : String),
    w ∈ l.foldl
        (fun poly_words child =>
          if pyLower child.lemma_ ∉ poly_words ∧ child.meaning ≠ "1" then
            poly_words ++ [pyLower child.lemma_]
          else poly_words) acc ↔
      w ∈ acc ∨ ∃ r ∈ l, pyLower r.lemma_ = w ∧ r.meaning ≠ "1" := by
  induction l with
  | nil => intro acc w; simp
  | cons c rest ih =>
      intro acc w
      rw [List.foldl_cons, ih, List.exists_mem_cons_iff]
      by_cases hcond : pyLower c.lemma_ ∉ acc ∧ c.meaning ≠ "1"
      · rw [if_pos hcond]
        simp only [List.mem_append, List.mem_singleton]
        constructor
        · rintro ((h | h) | h)
          · exact Or.inl h
          · exact Or.inr (Or.inl ⟨h.symm, hcond.2⟩)
          · exact Or.inr (Or.inr h)
        · rintro (h | (⟨hw, -⟩ | h))
          · exact Or.inl (Or.inl h)
          · exact Or.inl (Or.inr hw.symm)
          · exact Or.inr h
      · rw [if_neg hcond]
        push_neg at hcond
        constructor
        · rintro (h | h)
          · exact Or.inl h
          · exact Or.inr (Or.inr h)
        · rintro (h | (⟨hw, hm⟩ | h))
          · exact Or.inl h
          · by_cases hin : pyLower c.lemma_ ∈ acc
            · exact Or.inl (hw ▸ hin)
            · exact absurd (hcond hin) hm
          · exact Or.inr h

theorem monoAux (l : List Sense) :
    ∀ (acc : List String) (w : String),
    w ∈ l.foldl
        (fun mono_words child =>
          if pyLower child.lemma_ ∉ mono_words ∧ child.meaning = "1" then
            mono_words ++ [pyLower child.lemma_]
          else mono_words) acc ↔
      w ∈ acc ∨ ∃ r ∈ l, pyLower r.lemma_ = w ∧ r.meaning = "1" := by
  induction l with
  | nil => intro acc w; simp
  | cons c rest ih =>
      intro acc w
      rw [List.foldl_cons, ih, List.exists_mem_cons_iff]
      by_cases hcond : pyLower c.lemma_ ∉ acc ∧ c.meaning = "1"
      · rw [if_pos hcond]
        simp only [List.mem_append, List.mem_singleton]
        constructor
        · rintro ((h | h) | h)
          · exact Or.inl h
          · exact Or.inr (Or.inl ⟨h.symm, hcond.2⟩)
          · exact Or.inr (Or.inr h)
        · rintro (h | (⟨hw, -⟩ | h))
          · exact Or.inl (Or.inl h)
          · exact Or.inl (Or.inr hw.symm)
          · exact Or.inr h
      · rw [if_neg hcond]
        push_neg at hcond
        constructor
        · rintro (h | h)
          · exact Or.inl h
          · exact Or.inr (Or.inr h)
        · rintro (h | (⟨hw, hm⟩ | h))
          · exact Or.inl h
          · by_cases hin : pyLower c.lemma_ ∈ acc
            · exact Or.inl (hw ▸ hin)
            · exact absurd hm (hcond hin)
          · exact Or.inr h

/-- C5 amended: `extract_polysesmous_words` collects exactly the lemmas
having some sense record with `meaning ≠ '1'`, and
`extract_monosesmous_words` exactly those having some sense record with
`meaning = '1'`.  A lemma with senses of both kinds belongs to BOTH lists,
so the two results need not be disjoint and do not partition the lemma set
(see the counterexample). -/
theorem claim_C5_membership_by_sense_number (sf : SenseFiles) (w : String) :
    (w ∈ extract_polysesmous_words sf "Noun" "lemmas" ↔
      ∃ r ∈ sf.senses_N, pyLower r.lemma_ = w ∧ r.meaning ≠ "1") ∧
    (w ∈ extract_monosesmous_words sf "Noun" "lemmas" ↔
      ∃ r ∈ sf.senses_N, pyLower r.lemma_ = w ∧ r.meaning = "1") := by
  constructor
  · rw [poly_noun_lemmas_eq, polyAux]
    simp
  · rw [mono_noun_lemmas_eq, monoAux]
    simp

/-- C7: part-of-speech resolution order is noun, then verb, then adjective,
first match winning: for a key present in both the noun and verb
partitions, `extract_word_synset_number` and `show_synset_words` return the
noun partition's stored value only. -/
theorem claim_C7_noun_partition_wins :
    (∀ (wn : WN) (w : String) (l : List String),
      dlookup wn.word_synset_N w = some l → dcontains wn.word_synset_V w = true →
      extract_word_synset_number wn w = l) ∧
    (∀ (wn : WN) (s : String) (l : List String),
      dlookup wn.synset_word_N s = some l → dcontains wn.synset_word_V s = true →
      show_synset_words wn s = l) := by
  constructor
  · intro wn w l hN _
    simp [extract_word_synset_number, hN]
  · intro wn s l hN _
    simp [show_synset_words, hN]

/-- Witness for C7 on an index with `w` and `s` in both the noun and verb
partitions with different stored values. -/
theorem claim_C7_noun_partition_wins_witness :
    extract_word_synset_number wnBoth "w" = ["N1"] ∧
    show_synset_words wnBoth "s" = ["x"] :=
  ⟨claim_C7_noun_partition_wins.1 wnBoth "w" ["N1"] rfl rfl,
   claim_C7_noun_partition_wins.2 wnBoth "s" ["x"] rfl rfl⟩

theorem synonyms_loop_entries (wn : WN) (word : String) (synsets : List String)
    (entries : List SynEntry) (wn' : WN)
    (hres : (synLoop word wn synsets []).map
        (fun r => ((Sum.inr (r.1.map (resolveAlias r.2)) : String ⊕ List SynEntry), r.2)) =
      Except.ok (Sum.inr entries, wn'))
    (hnd : synsets.Nodup) :
    ∀ e ∈ entries, e.synset_id ∈ synsets ∧
      e.synonyms = (show_synset_words wn e.synset_id).erase word := by
  cases hrun : synLoop word wn synsets [] with
  | error err => rw [hrun] at hres; cases hres
  | ok p =>
      rw [hrun] at hres
      simp only [Except.map] at hres
      injection hres with h
      injection h with h1 h2
      injection h1 with h1
      intro e he
      have he' : e ∈ p.1.map (resolveAlias p.2) := by rw [h1]; exact he
      rcases List.mem_map.mp he' with ⟨e0, he0, heq⟩
      rcases synLoop_spec word synsets wn [] p.1 p.2 hrun hnd e0 he0
        with habs | ⟨hmem, hsnap, hfix⟩
      · cases habs
      · rw [← heq, hfix]
        exact ⟨hmem, hsnap⟩

/-- C8 counterexample: the claim quantifies over every resolvable word and
every resolved synset, but when the resolved synset list repeats a synset
id the first-occurrence-only property fails.  Word `a` resolves to
`["S1", "S1"]` and `S1` stores `["a", "a", "b"]`: the loop removes one `a`
per repetition from the same aliased stored list, and both returned
entries expose its final value `["b"]` — not `["a", "b"]`, the member word
list with exactly the first occurrence of `a` removed. -/
theorem claim_C8_counterexample :
    extract_word_synset_number wnDup "a" = ["S1", "S1"] ∧
    show_synset_words wnDup "S1" = ["a", "a", "b"] ∧
    show_synonyms wnDup "a" =
      .ok (Sum.inr [⟨"S1", ["b"], "D"⟩, ⟨"S1", ["b"], "D"⟩],
        eraseSynsetWord (eraseSynsetWord wnDup "S1" "a") "S1" "a") ∧
    (show_synset_words wnDup "S1").erase "a" = ["a", "b"] ∧
    (⟨"S1", ["b"], "D"⟩ : SynEntry).synonyms ≠ ["a", "b"] := by
  refine ⟨rfl, rfl, rfl, rfl, ?_⟩
  decide

/-- C8 amended: for every resolvable word whose resolved synset list has no
duplicates, every entry produced by `show_synonyms` carries, for its
synset, the stored member word list with exactly the first occurrence of
the query word removed (Python `list.remove` semantics, `List.erase`
here) — not all occurrences.  When a synset id repeats in the resolved
list, all of its entries alias the same stored list and one occurrence is
removed per repetition (see the counterexample). -/
theorem claim_C8_erase_first_occurrence (wn : WN) (word : String)
    (entries : List SynEntry) (wn' : WN)
    (hres : show_synonyms wn word = .ok (Sum.inr entries, wn'))
    (hnd : (extract_word_synset_number wn word).Nodup) :
    ∀ e ∈ entries, e.synset_id ∈ extract_word_synset_number wn word ∧
      e.synonyms = (show_synset_words wn e.synset_id).erase word := by
  cases hN : dlookup wn.word_synset_N word with
  | some synsets =>
      have hext : extract_word_synset_number wn word = synsets := by
        simp [extract_word_synset_number, hN]
      rw [hext] at hnd ⊢
      simp only [show_synonyms, hN] at hres
      exact synonyms_loop_entries wn word synsets entries wn' hres hnd
  | none =>
      cases hV : dlookup wn.word_synset_V word with
      | some synsets =>
          have hext : extract_word_synset_number wn word = synsets := by
            simp [extract_word_synset_number, hN, hV]
          rw [hext] at hnd ⊢
          simp only [show_synonyms, hN, hV] at hres
          exact synonyms_loop_entries wn word synsets entries wn' hres hnd
      | none =>
          cases hA : dlookup wn.word_synset_A word with
          | some synsets =>
              have hext : extract_word_synset_number wn word = synsets := by
                simp [extract_word_synset_number, hN, hV, hA]
              rw [hext] at hnd ⊢
              simp only [show_synonyms, hN, hV, hA] at hres
              exact synonyms_loop_entries wn word synsets entries wn' hres hnd
          | none =>
              simp only [show_synonyms, hN, hV, hA] at hres
              injection hres with h
              injection h with h1 h2
              cases h1

/-- Witness for C8 on the synset `S1` storing `["luk", "luk", "oruzhie"]`
queried with `luk`: the produced synonym list is `["luk", "oruzhie"]`,
only the first occurrence removed. -/
theorem claim_C8_erase_first_occurrence_witness :
    (⟨"S1", ["luk", "oruzhie"], "LUK"⟩ : SynEntry).synset_id ∈
      extract_word_synset_number wnLuk "luk" ∧
    (⟨"S1", ["luk", "oruzhie"], "LUK"⟩ : SynEntry).synonyms =
      (show_synset_words wnLuk "S1").erase "luk" :=
  claim_C8_erase_first_occurrence wnLuk "luk"
    [⟨"S1", ["luk", "oruzhie"], "LUK"⟩] (eraseSynsetWord wnLuk "S1" "luk")
    rfl (by decide) ⟨"S1", ["luk", "oruzhie"], "LUK"⟩ (by simp)

/-- C9 counterexample: the claim says `synset_id ∈ resolveSynsets(name)`
with the ingested `name` taken verbatim.  For the record `("Dom", "N1")`
the name is stored lowercased at ingestion while the lookup does not
case-fold its query, so `resolveSynsets("Dom")` is the not-found sentinel
and does not contain `N1`. -/
theorem claim_C9_counterexample :
    sensesDom = [⟨"Dom", "N1", "1", "dom"⟩] ∧
    wnDom.word_synset_N = (create_word_synset_map sensesDom).1 ∧
    extract_word_synset_number wnDom "Dom" = ["No such word in RuWordNet"] ∧
    "N1" ∉ extract_word_synset_number wnDom "Dom" := by
  refine ⟨rfl, rfl, rfl, ?_⟩
  decide

/-- C9 amended: inverse-index property of the two maps built by
`create_word_synset_map` from one sense stream, stated for the lowercased
name under which ingestion stores each record (the verbatim name fails for
uppercase spellings, see the counterexample): every ingested record's
`synset_id` is among the synsets resolved for its lowercased `name`, the
lowercased `name` is among the words of its `synset_id`, and membership in
the word→synsets map and the synset→words map are equivalent. -/
theorem claim_C9_inverse_index (senses : List Sense) (wn : WN)
    (hws : wn.word_synset_N = (create_word_synset_map senses).1)
    (hsw : wn.synset_word_N = (create_word_synset_map senses).2) :
    (∀ r ∈ senses,
      r.synset_id ∈ extract_word_synset_number wn (pyLower r.name) ∧
      pyLower r.name ∈ show_synset_words wn r.synset_id) ∧
    (∀ w S : String,
      S ∈ (dlookup wn.word_synset_N w).getD [] ↔
      w ∈ (dlookup wn.synset_word_N S).getD []) := by
  constructor
  · intro r hr
    constructor
    · have hmem : r.synset_id ∈ (dlookup wn.word_synset_N (pyLower r.name)).getD [] := by
        rw [hws, create_word_synset_map,
          create_fst_mem senses ([], []) (pyLower r.name) r.synset_id]
        exact Or.inr ⟨r, hr, rfl, rfl⟩
      cases hl : dlookup wn.word_synset_N (pyLower r.name) with
      | none => rw [hl] at hmem; simp at hmem
      | some l =>
          have hx : extract_word_synset_number wn (pyLower r.name) = l := by
            simp [extract_word_synset_number, hl]
          rw [hx]
          rw [hl] at hmem
          simpa using hmem
    · have hmem : pyLower r.name ∈ (dlookup wn.synset_word_N r.synset_id).getD [] := by
        rw [hsw, create_word_synset_map,
          create_snd_mem senses ([], []) r.synset_id (pyLower r.name)]
        exact Or.inr ⟨r, hr, rfl, rfl⟩
      cases hl : dlookup wn.synset_word_N r.synset_id with
      | none => rw [hl] at hmem; simp at hmem
      | some l =>
          have hx : show_synset_words wn r.synset_id = l := by
            simp [show_synset_words, hl]
          rw [hx]
          rw [hl] at hmem
          simpa using hmem
  · intro w S
    rw [hws, hsw, create_word_synset_map,
      create_fst_mem senses ([], []) w S, create_snd_mem senses ([], []) S w]
    simp [dlookup]

/-- Witness for C9 at the record `("Dom", "N1")` and the index built from
it. -/
theorem claim_C9_inverse_index_witness :
    "N1" ∈ extract_word_synset_number wnDom (pyLower "Dom") ∧
    pyLower "Dom" ∈ show_synset_words wnDom "N1" :=
  (claim_C9_inverse_index sensesDom wnDom rfl rfl).1
    ⟨"Dom", "N1", "1", "dom"⟩ (by simp [sensesDom])

/-- C10: when a synset has an outgoing relation edge whose target synset id
is absent from all three synset→words maps,
`show_synset_relations_with_words` includes the literal sentinel string
`'No such synset in the thesaurus'` as an element of the word list of that
relation (the sentinel list returned by `show_synset_words` is extended
into the output), rather than omitting the unknown target. -/
theorem claim_C10_dangling_target_sentinel (wn : WN)
    (synset_number relation target : String)
    (rels : List (String × List String)) (targets : List String)
    (hb : dlookup wn.basic_relations synset_number = some rels)
    (hrt : (relation, targets) ∈ rels)
    (ht : target ∈ targets)
    (hN : dlookup wn.synset_word_N target = none)
    (hV : dlookup wn.synset_word_V target = none)
    (hA : dlookup wn.synset_word_A target = none) :
    "No such synset in the thesaurus" ∈
      (dlookup (show_synset_relations_with_words wn synset_number none) relation).getD [] := by
  have hw : show_synset_words wn target = ["No such synset in the thesaurus"] := by
    simp [show_synset_words, hN, hV, hA]
  have hbr : show_basic_synset_relations wn synset_number = rels := by
    simp [show_basic_synset_relations, hb]
  have hne : ¬(rels = []) := by
    intro h
    subst h
    cases hrt
  simp only [show_synset_relations_with_words, hbr, if_neg hne]
  rw [relWordsFlat]
  exact relFold_mem wn relation target "No such synset in the thesaurus" targets rels []
    hrt ht (by simp [hw])

/-- Witness for C10 on an index whose synset `S` has a `hyp` edge to the
unknown target `X`. -/
theorem claim_C10_dangling_target_sentinel_witness :
    "No such synset in the thesaurus" ∈
      (dlookup (show_synset_relations_with_words wnDangling "S" none) "hyp").getD [] :=
  claim_C10_dangling_target_sentinel wnDangling "S" "hyp" "X" [("hyp", ["X"])] ["X"]
    rfl (by simp) (by simp) rfl rfl rfl

end RuWordNet
